import Mathlib

set_option maxRecDepth 100000

/-!
Shallow embedding of `src/main.rs` of the fpl_team_selector repository.

Players carry a numeric identifier (`element`), a cost (`value`), a
category (`position`), a group (`team`) and a predicted score
(`predicted_points`).  The Rust `f32` costs and scores are embedded as
rationals; `u32` identifiers as naturals.  Randomness (the thread rng)
is embedded as explicit parameters: a draw stream `Nat → Nat` indexing
into the pool, booleans for coin flips, and naturals for chosen
indices.  The unbounded `while` loops of `generate_random_team` are
given explicit fuel and return `Option`, `none` standing for
non-termination within the fuel.
-/

structure Player where
  element : Nat
  name : String
  value : ℚ
  position : String
  team : String
  predicted_points : ℚ
deriving DecidableEq

/-- Budget cap `MAX_VALUE` from the source. -/
def MAX_VALUE : ℚ := 1000

/-- Group cap `MAX_PLAYERS_PER_TEAM` from the source. -/
def MAX_PLAYERS_PER_TEAM : Nat := 3

/-- Category caps, the `max_positions` table from the source. -/
def max_positions : List (String × Nat) :=
  [("GK", 2), ("DEF", 5), ("MID", 5), ("FWD", 3)]

/-- Lookup in the category-cap table (`max_positions().get(pos)`). -/
def maxPos (pos : String) : Option Nat :=
  max_positions.lookup pos

/-- Number of members of a squad carrying the given category string. -/
def countPos : List Player → String → Nat
  | [], _ => 0
  | q :: rest, pos => (if q.position = pos then 1 else 0) + countPos rest pos

/-- Number of members of a squad carrying the given group string. -/
def countTeam : List Player → String → Nat
  | [], _ => 0
  | q :: rest, tm => (if q.team = tm then 1 else 0) + countTeam rest tm

/-- Sum of the member costs (`team.iter().map(|p| p.value).sum()`). -/
def totalValue : List Player → ℚ
  | [] => 0
  | q :: rest => q.value + totalValue rest

/-- First loop of `satisfies_constraints`: walk the squad with a set of
seen identifiers, failing as soon as an identifier repeats. -/
def uniqueLoop : List Nat → List Player → Bool
  | _, [] => true
  | seen, q :: rest => !(decide (q.element ∈ seen)) && uniqueLoop (q.element :: seen) rest

/-- Per-player category check of the second loop of
`satisfies_constraints`: after incrementing the category of this player, the
count, the count must not exceed the cap, when the category has one. -/
def posOk (posC : String → Nat) (q : Player) : Bool :=
  match maxPos q.position with
  | some cap => decide (posC q.position + 1 ≤ cap)
  | none => true

/-- Second loop of `satisfies_constraints`: running category counts,
group counts and cost, failing when an incremented group count exceeds
`MAX_PLAYERS_PER_TEAM` or the running cost exceeds `MAX_VALUE`. -/
def constraintsLoop : List Player → (String → Nat) → (String → Nat) → ℚ → Bool
  | [], _, _, _ => true
  | q :: rest, posC, teamC, tv =>
    posOk posC q &&
    (decide (teamC q.team + 1 ≤ MAX_PLAYERS_PER_TEAM) && decide (tv + q.value ≤ MAX_VALUE)) &&
    constraintsLoop rest
      (fun s => if q.position = s then posC s + 1 else posC s)
      (fun s => if q.team = s then teamC s + 1 else teamC s)
      (tv + q.value)

/-- The constraint validator `satisfies_constraints` from the source:
identifier uniqueness, then the running category/group/cost checks,
then the final size check `team.len() == 15`. -/
def satisfies_constraints (team : List Player) : Bool :=
  uniqueLoop [] team &&
  (constraintsLoop team (fun _ => 0) (fun _ => 0) 0 && decide (team.length = 15))

/-- Bench-weighted sum over the ascending score list: positions 0..3
contribute a quarter of their score, the rest contribute in full. -/
def adjustedSum (points : List ℚ) : ℚ :=
  (points.enum.map (fun ip => if ip.1 < 4 then ip.2 * 0.25 else ip.2)).sum

/-- The fitness function from the source: zero above the budget cap,
otherwise the bench-weighted sum of the ascending-sorted scores. -/
def fitness (team : List Player) : ℚ :=
  if totalValue team > MAX_VALUE then 0
  else adjustedSum (List.insertionSort (fun a b => a ≤ b) (team.map (fun p => p.predicted_points)))

/-- Loop body of `generate_random_team`: at each step the draw stream
yields an index into the pool; an in-range draw is accepted when its
category count is strictly below the cap (zero for unlisted
categories, `unwrap_or(&0)`), its group count is strictly below
`MAX_PLAYERS_PER_TEAM`, and the cost still fits the budget.  The loop
ends once the squad holds 15 members; exhausted fuel models
non-termination. -/
def genLoop (players : List Player) (draws : Nat → Nat) :
    Nat → Nat → List Player → (String → Nat) → (String → Nat) → ℚ → Option (List Player)
  | fuel, k, team, posC, teamC, tv =>
    if 15 ≤ team.length then some team
    else
      match fuel with
      | 0 => none
      | fuel2 + 1 =>
        match players[draws k]? with
        | none => genLoop players draws fuel2 (k + 1) team posC teamC tv
        | some q =>
          if posC q.position < (maxPos q.position).getD 0
              ∧ teamC q.team < MAX_PLAYERS_PER_TEAM
              ∧ tv + q.value ≤ MAX_VALUE then
            genLoop players draws fuel2 (k + 1) (team ++ [q])
              (fun s => if q.position = s then posC s + 1 else posC s)
              (fun s => if q.team = s then teamC s + 1 else teamC s)
              (tv + q.value)
          else genLoop players draws fuel2 (k + 1) team posC teamC tv

/-- The population initializer `generate_random_team` from the source,
started on the empty squad and zero counters. -/
def generate_random_team (players : List Player) (draws : Nat → Nat) (fuel : Nat) :
    Option (List Player) :=
  genLoop players draws fuel 0 [] (fun _ => 0) (fun _ => 0) 0

/-- Walk after the first kept element of `dedup_by_key`: drop a member whose
identifier equals the last kept one, otherwise keep it and make it the
new last kept element.  This is Rust `Vec::dedup_by_key`, which only
collapses runs of consecutive equal keys. -/
def dedupTail (prev : Player) : List Player → List Player
  | [] => []
  | q :: rest =>
    if q.element = prev.element then dedupTail prev rest
    else q :: dedupTail q rest

/-- The `child.dedup_by_key(|p| p.element)` step of `crossover`. -/
def dedupByKeyElem : List Player → List Player
  | [] => []
  | q :: rest => q :: dedupTail q rest

/-- Repair loop of `crossover`: up to 400 attempts, draw a member of
parent1 and append it when its identifier is not yet in the child,
stopping once the child holds 15 members. -/
def repairLoop (parent1 : List Player) (picks : Nat → Nat) :
    Nat → Nat → List Player → List Player
  | 0, _, child => child
  | tries + 1, cur, child =>
    if child.length < 15 then
      match parent1[picks cur]? with
      | some q =>
        if child.any (fun c => c.element == q.element)
        then repairLoop parent1 picks tries (cur + 1) child
        else repairLoop parent1 picks tries (cur + 1) (child ++ [q])
      | none => repairLoop parent1 picks tries (cur + 1) child
    else child

/-- The spliced, deduplicated and repaired child built by `crossover`
before the final validation. -/
def crossover_child (parent1 parent2 : List Player) (split : Nat) (picks : Nat → Nat) :
    List Player :=
  repairLoop parent1 picks 400 0 (dedupByKeyElem (parent1.take split ++ parent2.drop split))

/-- The crossover operator from the source: return the repaired child
when it passes the validator, otherwise a coin flip between verbatim
clones of the two parents. -/
def crossover (parent1 parent2 : List Player) (split : Nat) (picks : Nat → Nat)
    (coin : Bool) : List Player :=
  if satisfies_constraints (crossover_child parent1 parent2 split picks)
  then crossover_child parent1 parent2 split picks
  else if coin then parent1 else parent2

/-- Squad after the optional single-slot swap of `mutate`: when the
mutation coin fires, the pool is non-empty at the picked index and the
squad is non-empty, the chosen slot is overwritten by the picked pool
player, with no constraint check. -/
def swapped (team players : List Player) (doSwap : Bool) (slot pick : Nat) : List Player :=
  if doSwap then
    match players[pick]? with
    | some newPlayer => if team.length = 0 then team else team.set slot newPlayer
    | none => team
  else team

/-- The mutation operator from the source: after the optional swap,
keep the squad when it passes the validator, otherwise replace it with
a freshly generated squad (whose generation loop may not terminate,
hence the `Option`). -/
def mutate (team players : List Player) (doSwap : Bool) (slot pick : Nat)
    (draws : Nat → Nat) (fuel : Nat) : Option (List Player) :=
  if satisfies_constraints (swapped team players doSwap slot pick)
  then some (swapped team players doSwap slot pick)
  else generate_random_team players draws fuel

/-- The reporting fold from `main`: running sum of predicted scores
paired with a running maximum that starts at zero. -/
def report_fold (team : List Player) : ℚ × ℚ :=
  (team.map (fun p => p.predicted_points)).foldl
    (fun acc x => (acc.1 + x, max acc.2 x)) (0, 0)

/-- The reported aggregate `total_predicted_points` from `main`: the
sum component of the fold plus the maximum component of the fold. -/
def total_predicted_points (team : List Player) : ℚ :=
  (report_fold team).1 + (report_fold team).2

/-- Convenience constructor for concrete players. -/
def mkP (e : Nat) (pos tm : String) (v pts : ℚ) : Player :=
  { element := e, name := "", value := v, position := pos, team := tm, predicted_points := pts }

/-- A concrete valid squad: 2 GK, 5 DEF, 5 MID, 3 FWD, five groups of
three, distinct identifiers, total cost 150. -/
def c3team : List Player :=
  [mkP 1 "GK" "A" 10 5, mkP 2 "GK" "B" 10 5,
   mkP 3 "DEF" "A" 10 5, mkP 4 "DEF" "B" 10 5, mkP 5 "DEF" "C" 10 5,
   mkP 6 "DEF" "D" 10 5, mkP 7 "DEF" "E" 10 5,
   mkP 8 "MID" "A" 10 5, mkP 9 "MID" "B" 10 5, mkP 10 "MID" "C" 10 5,
   mkP 11 "MID" "D" 10 5, mkP 12 "MID" "E" 10 5,
   mkP 13 "FWD" "C" 10 5, mkP 14 "FWD" "D" 10 5, mkP 15 "FWD" "E" 10 5]

/-- A concrete pool of 14 players whose first member can be accepted
twice by the initializer (category DEF, cap 5; group F, cap 3). -/
def c1pool : List Player :=
  [mkP 100 "DEF" "F" 1 1,
   mkP 101 "DEF" "G" 1 1, mkP 102 "DEF" "H" 1 1, mkP 103 "DEF" "I" 1 1,
   mkP 104 "GK" "J" 1 1, mkP 105 "GK" "K" 1 1,
   mkP 106 "MID" "L" 1 1, mkP 107 "MID" "M" 1 1, mkP 108 "MID" "P" 1 1,
   mkP 109 "MID" "Q" 1 1, mkP 110 "MID" "R" 1 1,
   mkP 111 "FWD" "S" 1 1, mkP 112 "FWD" "T" 1 1, mkP 113 "FWD" "U" 1 1]

/-- Draw stream picking pool index 0 twice, then indices 1..13. -/
def c1draws : Nat → Nat :=
  fun k => if k = 0 then 0 else k - 1

/-- The initializer run on `c1pool` with `c1draws`. -/
def c1gen : Option (List Player) := generate_random_team c1pool c1draws 20

/-- A one-member squad whose cost exceeds the budget cap. -/
def c4team : List Player := [mkP 1 "GK" "A" 2000 50]

def c5x : Player := mkP 1 "GK" "A" 10 7

def c5y : Player := mkP 2 "DEF" "B" 20 3

def c5a : List Player := [c5x, c5y]

def c5b : List Player := [c5y, c5x]

/-- Parent2 for the dedup counterexample: `c3team` with the member at
index 2 replaced by a second player carrying identifier 1. -/
def c6p2 : List Player := c3team.set 2 (mkP 1 "DEF" "C" 10 5)

/-- Spliced crossover child of `c3team` and `c6p2` at split point 2:
its identifier sequence starts 1, 2, 1, so the duplicate pair is not
consecutive. -/
def c6spliced : List Player := c3team.take 2 ++ c6p2.drop 2

/-- A 15-member squad whose predicted scores are all negative. -/
def c7team : List Player :=
  [mkP 1 "GK" "A" 0 (-1), mkP 2 "GK" "B" 0 (-1), mkP 3 "DEF" "A" 0 (-1),
   mkP 4 "DEF" "B" 0 (-1), mkP 5 "DEF" "C" 0 (-1), mkP 6 "DEF" "D" 0 (-1),
   mkP 7 "DEF" "E" 0 (-1), mkP 8 "MID" "A" 0 (-1), mkP 9 "MID" "B" 0 (-1),
   mkP 10 "MID" "C" 0 (-1), mkP 11 "MID" "D" 0 (-1), mkP 12 "MID" "E" 0 (-1),
   mkP 13 "FWD" "C" 0 (-1), mkP 14 "FWD" "D" 0 (-1), mkP 15 "FWD" "E" 0 (-1)]

/-- Fifteen distinct players of the unlisted category "XX" on fifteen
distinct groups; one negative cost makes a running-cost prefix exceed
the budget cap although the total is exactly the cap. -/
def c9team : List Player :=
  [mkP 1 "XX" "A" 1001 0, mkP 2 "XX" "B" (-1) 0, mkP 3 "XX" "C" 0 0,
   mkP 4 "XX" "D" 0 0, mkP 5 "XX" "E" 0 0, mkP 6 "XX" "F" 0 0,
   mkP 7 "XX" "G" 0 0, mkP 8 "XX" "H" 0 0, mkP 9 "XX" "I" 0 0,
   mkP 10 "XX" "J" 0 0, mkP 11 "XX" "K" 0 0, mkP 12 "XX" "L" 0 0,
   mkP 13 "XX" "M" 0 0, mkP 14 "XX" "N" 0 0, mkP 15 "XX" "O" 0 0]

/-- Fifteen distinct zero-cost players of the unlisted category "XX"
on fifteen distinct groups. -/
def c9valid : List Player :=
  [mkP 1 "XX" "A" 0 0, mkP 2 "XX" "B" 0 0, mkP 3 "XX" "C" 0 0,
   mkP 4 "XX" "D" 0 0, mkP 5 "XX" "E" 0 0, mkP 6 "XX" "F" 0 0,
   mkP 7 "XX" "G" 0 0, mkP 8 "XX" "H" 0 0, mkP 9 "XX" "I" 0 0,
   mkP 10 "XX" "J" 0 0, mkP 11 "XX" "K" 0 0, mkP 12 "XX" "L" 0 0,
   mkP 13 "XX" "M" 0 0, mkP 14 "XX" "N" 0 0, mkP 15 "XX" "O" 0 0]

lemma countPos_append (l1 l2 : List Player) (pos : String) :
    countPos (l1 ++ l2) pos = countPos l1 pos + countPos l2 pos := by
  induction l1 with
  | nil => simp [countPos]
  | cons q rest ih => simp [countPos, ih]; omega

lemma countTeam_append (l1 l2 : List Player) (tm : String) :
    countTeam (l1 ++ l2) tm = countTeam l1 tm + countTeam l2 tm := by
  induction l1 with
  | nil => simp [countTeam]
  | cons q rest ih => simp [countTeam, ih]; omega

lemma totalValue_append (l1 l2 : List Player) :
    totalValue (l1 ++ l2) = totalValue l1 + totalValue l2 := by
  induction l1 with
  | nil => simp [totalValue]
  | cons q rest ih => simp [totalValue, ih]; ring

lemma uniqueLoop_iff (l : List Player) :
    ∀ seen : List Nat, uniqueLoop seen l = true ↔
      ((l.map (fun p => p.element)).Nodup ∧
        ∀ e ∈ seen, e ∉ l.map (fun p => p.element)) := by
  induction l with
  | nil => intro seen; simp [uniqueLoop]
  | cons q rest ih =>
    intro seen
    simp only [uniqueLoop, Bool.and_eq_true, Bool.not_eq_true',
      decide_eq_false_iff_not, ih, List.map_cons, List.nodup_cons, List.mem_cons]
    constructor
    · rintro ⟨hq, hnd, hseen⟩
      refine ⟨⟨?_, hnd⟩, ?_⟩
      · exact fun hmem => (hseen q.element (by simp)).elim hmem
      · intro e he
        have h2 := hseen e (by simp [he])
        exact fun hc => hc.elim (fun heq => hq (heq ▸ he)) h2
    · rintro ⟨⟨hq, hnd⟩, hseen⟩
      refine ⟨fun hmem => ?_, hnd, ?_⟩
      · exact (hseen q.element hmem) (Or.inl rfl)
      · intro e he
        rcases he with he | he
        · exact he ▸ hq
        · exact fun hc => (hseen e he) (Or.inr hc)

lemma satisfies_iff (team : List Player) :
    satisfies_constraints team = true ↔
      (uniqueLoop [] team = true ∧
        constraintsLoop team (fun _ => 0) (fun _ => 0) 0 = true ∧ team.length = 15) := by
  simp [satisfies_constraints, Bool.and_eq_true, decide_eq_true_eq]

lemma satisfies_length {team : List Player} (h : satisfies_constraints team = true) :
    team.length = 15 :=
  ((satisfies_iff team).mp h).2.2

lemma posOk_cap {posC : String → Nat} {q : Player} {cap : Nat}
    (h : posOk posC q = true) (hm : maxPos q.position = some cap) :
    posC q.position + 1 ≤ cap := by
  unfold posOk at h
  rw [hm] at h
  exact of_decide_eq_true h

lemma constraintsLoop_bounds (l : List Player) :
    ∀ (posC teamC : String → Nat) (tv : ℚ),
    constraintsLoop l posC teamC tv = true →
    (∀ pos cap, maxPos pos = some cap →
        countPos l pos = 0 ∨ posC pos + countPos l pos ≤ cap) ∧
    (∀ tm, countTeam l tm = 0 ∨ teamC tm + countTeam l tm ≤ MAX_PLAYERS_PER_TEAM) ∧
    (l = [] ∨ tv + totalValue l ≤ MAX_VALUE) := by
  induction l with
  | nil =>
    intro posC teamC tv _
    exact ⟨fun pos cap _ => Or.inl rfl, fun tm => Or.inl rfl, Or.inl rfl⟩
  | cons q rest ih =>
    intro posC teamC tv h
    simp only [constraintsLoop, Bool.and_eq_true, decide_eq_true_eq] at h
    obtain ⟨⟨hpos, hteam, hval⟩, hrec⟩ := h
    obtain ⟨ih1, ih2, ih3⟩ := ih (fun s => if q.position = s then posC s + 1 else posC s)
      (fun s => if q.team = s then teamC s + 1 else teamC s) (tv + q.value) hrec
    refine ⟨?_, ?_, ?_⟩
    · intro pos cap hm
      have hcnt : countPos (q :: rest) pos
          = (if q.position = pos then 1 else 0) + countPos rest pos := by
        simp [countPos]
      have hih := ih1 pos cap hm
      simp only [] at hih
      by_cases hqs : q.position = pos
      · have hcap : posC q.position + 1 ≤ cap := posOk_cap hpos (hqs ▸ hm)
        rw [hqs] at hcap
        rw [if_pos hqs] at hih hcnt
        rcases hih with h0 | hle
        · right; omega
        · right; omega
      · rw [if_neg hqs] at hih hcnt
        rcases hih with h0 | hle
        · left; omega
        · right; omega
    · intro tm
      have hcnt : countTeam (q :: rest) tm
          = (if q.team = tm then 1 else 0) + countTeam rest tm := by
        simp [countTeam]
      have hih := ih2 tm
      simp only [] at hih
      by_cases hqs : q.team = tm
      · have hcap : teamC q.team + 1 ≤ MAX_PLAYERS_PER_TEAM := hteam
        rw [hqs] at hcap
        rw [if_pos hqs] at hih hcnt
        rcases hih with h0 | hle
        · right; omega
        · right; omega
      · rw [if_neg hqs] at hih hcnt
        rcases hih with h0 | hle
        · left; omega
        · right; omega
    · right
      have hcnt : totalValue (q :: rest) = q.value + totalValue rest := by
        simp [totalValue]
      rcases ih3 with h0 | hle
      · subst h0
        simp only [totalValue]
        linarith
      · rw [hcnt]
        linarith

/-- Forward direction of the validator: everything the validator
accepts has 15 distinct members within all caps and budget. -/
lemma satisfies_bounds {team : List Player} (h : satisfies_constraints team = true) :
    team.length = 15 ∧ (team.map (fun p => p.element)).Nodup ∧
    (∀ pos cap, maxPos pos = some cap → countPos team pos ≤ cap) ∧
    (∀ tm, countTeam team tm ≤ MAX_PLAYERS_PER_TEAM) ∧
    totalValue team ≤ MAX_VALUE := by
  obtain ⟨hu, hc, hlen⟩ := (satisfies_iff team).mp h
  have hnd := ((uniqueLoop_iff team []).mp hu).1
  obtain ⟨h1, h2, h3⟩ := constraintsLoop_bounds team (fun _ => 0) (fun _ => 0) 0 hc
  refine ⟨hlen, hnd, ?_, ?_, ?_⟩
  · intro pos cap hm
    rcases h1 pos cap hm with h0 | hle
    · omega
    · omega
  · intro tm
    rcases h2 tm with h0 | hle
    · omega
    · omega
  · rcases h3 with h0 | hle
    · rw [h0] at hlen; simp at hlen
    · linarith

lemma totalValue_nonneg {l : List Player} (h : ∀ q ∈ l, 0 ≤ q.value) :
    0 ≤ totalValue l := by
  induction l with
  | nil => simp [totalValue]
  | cons q rest ih =>
    simp only [totalValue]
    have hq := h q (by simp)
    have hr := ih (fun p hp => h p (by simp [hp]))
    linarith

lemma constraintsLoop_of_nocap (l : List Player) :
    ∀ (posC teamC : String → Nat) (tv : ℚ),
    (∀ q ∈ l, maxPos q.position = none) →
    (∀ q ∈ l, 0 ≤ q.value) →
    (∀ q ∈ l, teamC q.team + countTeam l q.team ≤ MAX_PLAYERS_PER_TEAM) →
    tv + totalValue l ≤ MAX_VALUE →
    constraintsLoop l posC teamC tv = true := by
  induction l with
  | nil => intro posC teamC tv _ _ _ _; rfl
  | cons q rest ih =>
    intro posC teamC tv hcap hnn hgrp hbud
    have hqcap : maxPos q.position = none := hcap q (by simp)
    have hvrest : 0 ≤ totalValue rest := totalValue_nonneg (fun p hp => hnn p (by simp [hp]))
    have htot : totalValue (q :: rest) = q.value + totalValue rest := by simp [totalValue]
    simp only [constraintsLoop, Bool.and_eq_true, decide_eq_true_eq]
    refine ⟨⟨?_, ?_, ?_⟩, ?_⟩
    · unfold posOk
      rw [hqcap]
    · have hg := hgrp q (by simp)
      have hc : countTeam (q :: rest) q.team = 1 + countTeam rest q.team := by
        simp [countTeam]
      omega
    · rw [htot] at hbud
      linarith
    · apply ih
      · exact fun p hp => hcap p (by simp [hp])
      · exact fun p hp => hnn p (by simp [hp])
      · intro p hp
        have hg := hgrp p (by simp [hp])
        have hc : countTeam (q :: rest) p.team
            = (if q.team = p.team then 1 else 0) + countTeam rest p.team := by
          simp [countTeam]
        by_cases hqs : q.team = p.team
        · rw [if_pos hqs] at hc
          simp only [if_pos hqs]
          omega
        · rw [if_neg hqs] at hc
          simp only [if_neg hqs]
          omega
      · rw [htot] at hbud
        linarith

/-- Backward direction of the validator for squads of uncapped
categories: 15 distinct members, groups within cap, nonnegative costs
within budget are accepted. -/
lemma satisfies_of_nocap {team : List Player}
    (hlen : team.length = 15)
    (hnd : (team.map (fun p => p.element)).Nodup)
    (hcap : ∀ q ∈ team, maxPos q.position = none)
    (hnn : ∀ q ∈ team, 0 ≤ q.value)
    (hgrp : ∀ q ∈ team, countTeam team q.team ≤ MAX_PLAYERS_PER_TEAM)
    (hbud : totalValue team ≤ MAX_VALUE) :
    satisfies_constraints team = true := by
  refine (satisfies_iff team).mpr ⟨?_, ?_, hlen⟩
  · exact (uniqueLoop_iff team []).mpr ⟨hnd, by simp⟩
  · apply constraintsLoop_of_nocap
    · exact hcap
    · exact hnn
    · intro q hq
      simpa using hgrp q hq
    · simpa using hbud

lemma genLoop_inv (players : List Player) (draws : Nat → Nat) :
    ∀ (fuel k : Nat) (team : List Player) (posC teamC : String → Nat) (tv : ℚ)
      (result : List Player),
    (∀ s, posC s = countPos team s) →
    (∀ s, teamC s = countTeam team s) →
    tv = totalValue team →
    (∀ s cap, maxPos s = some cap → posC s ≤ cap) →
    (∀ s, teamC s ≤ MAX_PLAYERS_PER_TEAM) →
    tv ≤ MAX_VALUE →
    team.length ≤ 15 →
    genLoop players draws fuel k team posC teamC tv = some result →
    result.length = 15 ∧
    (∀ pos cap, maxPos pos = some cap → countPos result pos ≤ cap) ∧
    (∀ tm, countTeam result tm ≤ MAX_PLAYERS_PER_TEAM) ∧
    totalValue result ≤ MAX_VALUE := by
  intro fuel
  induction fuel with
  | zero =>
    intro k team posC teamC tv result hpc htc htv hcap hgrp hbud hlen hrun
    simp only [genLoop] at hrun
    by_cases h15 : 15 ≤ team.length
    · rw [if_pos h15] at hrun
      injection hrun with h
      subst h
      refine ⟨by omega, ?_, ?_, ?_⟩
      · intro pos cap hm
        rw [← hpc pos]
        exact hcap pos cap hm
      · intro tm
        rw [← htc tm]
        exact hgrp tm
      · rw [← htv]
        exact hbud
    · rw [if_neg h15] at hrun
      simp at hrun
  | succ fuel ih =>
    intro k team posC teamC tv result hpc htc htv hcap hgrp hbud hlen hrun
    rw [genLoop] at hrun
    by_cases h15 : 15 ≤ team.length
    · rw [if_pos h15] at hrun
      injection hrun with h
      subst h
      refine ⟨by omega, ?_, ?_, ?_⟩
      · intro pos cap hm
        rw [← hpc pos]
        exact hcap pos cap hm
      · intro tm
        rw [← htc tm]
        exact hgrp tm
      · rw [← htv]
        exact hbud
    · rw [if_neg h15] at hrun
      cases hq : players[draws k]? with
      | none =>
        simp only [hq] at hrun
        exact ih (k + 1) team posC teamC tv result hpc htc htv hcap hgrp hbud hlen hrun
      | some q =>
        simp only [hq] at hrun
        by_cases hacc : posC q.position < (maxPos q.position).getD 0
            ∧ teamC q.team < MAX_PLAYERS_PER_TEAM ∧ tv + q.value ≤ MAX_VALUE
        · rw [if_pos hacc] at hrun
          obtain ⟨ha1, ha2, ha3⟩ := hacc
          have hpc2 : ∀ s, (if q.position = s then posC s + 1 else posC s)
              = countPos (team ++ [q]) s := by
            intro s
            rw [countPos_append]
            have hone : countPos [q] s = if q.position = s then 1 else 0 := by
              simp [countPos]
            rw [hone, ← hpc s]
            by_cases hqs : q.position = s
            · simp [hqs]
            · simp [hqs]
          have htc2 : ∀ s, (if q.team = s then teamC s + 1 else teamC s)
              = countTeam (team ++ [q]) s := by
            intro s
            rw [countTeam_append]
            have hone : countTeam [q] s = if q.team = s then 1 else 0 := by
              simp [countTeam]
            rw [hone, ← htc s]
            by_cases hqs : q.team = s
            · simp [hqs]
            · simp [hqs]
          have htv2 : tv + q.value = totalValue (team ++ [q]) := by
            rw [totalValue_append]
            have hone : totalValue [q] = q.value := by simp [totalValue]
            rw [hone, htv]
          have hcap2 : ∀ s cap, maxPos s = some cap →
              (if q.position = s then posC s + 1 else posC s) ≤ cap := by
            intro s cap hm
            by_cases hqs : q.position = s
            · rw [if_pos hqs]
              rw [hqs] at ha1
              rw [hm] at ha1
              simpa using ha1
            · rw [if_neg hqs]
              exact hcap s cap hm
          have hgrp2 : ∀ s, (if q.team = s then teamC s + 1 else teamC s)
              ≤ MAX_PLAYERS_PER_TEAM := by
            intro s
            by_cases hqs : q.team = s
            · rw [if_pos hqs]
              rw [hqs] at ha2
              omega
            · rw [if_neg hqs]
              exact hgrp s
          have hlen2 : (team ++ [q]).length ≤ 15 := by
            simp only [List.length_append, List.length_cons, List.length_nil]
            omega
          exact ih (k + 1) (team ++ [q])
            (fun s => if q.position = s then posC s + 1 else posC s)
            (fun s => if q.team = s then teamC s + 1 else teamC s)
            (tv + q.value) result hpc2 htc2 htv2 hcap2 hgrp2 ha3 hlen2 hrun
        · rw [if_neg hacc] at hrun
          exact ih (k + 1) team posC teamC tv result hpc htc htv hcap hgrp hbud hlen hrun

/-- Invariant of the population initializer: any squad it returns has
15 members within the category caps, group cap and budget. -/
lemma generate_inv {players result : List Player} {draws : Nat → Nat} {fuel : Nat}
    (hrun : generate_random_team players draws fuel = some result) :
    result.length = 15 ∧
    (∀ pos cap, maxPos pos = some cap → countPos result pos ≤ cap) ∧
    (∀ tm, countTeam result tm ≤ MAX_PLAYERS_PER_TEAM) ∧
    totalValue result ≤ MAX_VALUE := by
  apply genLoop_inv players draws fuel 0 [] (fun _ => 0) (fun _ => 0) 0 result
  · intro s; rfl
  · intro s; rfl
  · rfl
  · intro s cap _; exact Nat.zero_le cap
  · intro s; exact Nat.zero_le _
  · simp [MAX_VALUE]
  · simp
  · exact hrun

lemma totalValue_perm {t1 t2 : List Player} (hp : t1.Perm t2) :
    totalValue t1 = totalValue t2 := by
  induction hp with
  | nil => rfl
  | cons x _ ih => simp [totalValue, ih]
  | swap x y l => simp [totalValue]; ring
  | trans _ _ ih1 ih2 => exact ih1.trans ih2

lemma sorted_points_perm {t1 t2 : List Player} (hp : t1.Perm t2) :
    List.insertionSort (fun a b => a ≤ b) (t1.map (fun p => p.predicted_points))
      = List.insertionSort (fun a b => a ≤ b) (t2.map (fun p => p.predicted_points)) := by
  have hperm : (List.insertionSort (fun a b : ℚ => a ≤ b)
        (t1.map (fun p => p.predicted_points))).Perm
      (List.insertionSort (fun a b : ℚ => a ≤ b) (t2.map (fun p => p.predicted_points))) :=
    (List.perm_insertionSort _ _).trans
      ((hp.map (fun p => p.predicted_points)).trans (List.perm_insertionSort _ _).symm)
  exact List.eq_of_perm_of_sorted hperm
    (List.sorted_insertionSort (fun a b : ℚ => a ≤ b) (t1.map (fun p => p.predicted_points)))
    (List.sorted_insertionSort (fun a b : ℚ => a ≤ b) (t2.map (fun p => p.predicted_points)))

lemma report_fold_eq (team : List Player) :
    ∀ s m : ℚ,
    (team.map (fun p => p.predicted_points)).foldl (fun acc x => (acc.1 + x, max acc.2 x)) (s, m)
      = (s + (team.map (fun p => p.predicted_points)).sum,
         (team.map (fun p => p.predicted_points)).foldl max m) := by
  induction team with
  | nil => intro s m; simp
  | cons q rest ih =>
    intro s m
    simp only [List.map_cons, List.foldl_cons, List.sum_cons]
    rw [ih]
    ring_nf

/-- Claim C1, counterexample: starting from the valid squad `c3team`,
a firing mutation swaps in a sixth defender, the post-swap squad fails
the validator, and the regeneration draws the same pool player twice,
so `mutate` returns a squad that fails the constraint validator. -/
theorem C1_mutate_cex :
    (mutate c3team c1pool true 0 0 c1draws 20).isSome = true ∧
    satisfies_constraints ((mutate c3team c1pool true 0 0 c1draws 20).getD []) = false := by
  constructor
  · with_unfolding_all decide
  · with_unfolding_all decide

/-- Claim C1, amended: `mutate` returns either a squad passing the
validator (the post-swap squad, unchanged) or a squad regenerated by
the initializer, which has 15 members within category caps, group cap
and budget but may repeat an identifier and hence fail the
validator. -/
theorem C1_mutate_valid_or_regenerated
    (team players : List Player) (doSwap : Bool) (slot pick : Nat)
    (draws : Nat → Nat) (fuel : Nat) (result : List Player)
    (hrun : mutate team players doSwap slot pick draws fuel = some result) :
    satisfies_constraints result = true ∨
    (result.length = 15 ∧
      (∀ pos cap, maxPos pos = some cap → countPos result pos ≤ cap) ∧
      (∀ tm, countTeam result tm ≤ MAX_PLAYERS_PER_TEAM) ∧
      totalValue result ≤ MAX_VALUE) := by
  unfold mutate at hrun
  by_cases h : satisfies_constraints (swapped team players doSwap slot pick) = true
  · rw [if_pos h] at hrun
    injection hrun with h2
    subst h2
    exact Or.inl h
  · rw [if_neg h] at hrun
    exact Or.inr (generate_inv hrun)

/-- Witness for the amended claim C1 at a concrete input: mutating
`c3team` with a non-firing coin returns it unchanged. -/
theorem C1_mutate_valid_or_regenerated_witness :
    satisfies_constraints c3team = true ∨
    (c3team.length = 15 ∧ totalValue c3team ≤ MAX_VALUE) := by
  have h := C1_mutate_valid_or_regenerated c3team c1pool false 0 0 c1draws 20 c3team
    (by with_unfolding_all decide)
  exact h.imp id (fun hr => ⟨hr.1, hr.2.2.2⟩)

/-- Claim C2: for 15-member parents and any split point, pick stream
and coin, `crossover` returns a validator-passing 15-member squad or a
verbatim clone of one of the two parents. -/
theorem C2_crossover_valid_or_parent
    (p1 p2 : List Player) (split : Nat) (picks : Nat → Nat) (coin : Bool)
    (_h1 : p1.length = 15) (_h2 : p2.length = 15) (_hs : split < 15) :
    (satisfies_constraints (crossover p1 p2 split picks coin) = true ∧
      (crossover p1 p2 split picks coin).length = 15) ∨
    crossover p1 p2 split picks coin = p1 ∨
    crossover p1 p2 split picks coin = p2 := by
  unfold crossover
  by_cases h : satisfies_constraints (crossover_child p1 p2 split picks) = true
  · rw [if_pos h]
    exact Or.inl ⟨h, satisfies_length h⟩
  · rw [if_neg h]
    cases coin
    · exact Or.inr (Or.inr (by simp))
    · exact Or.inr (Or.inl (by simp))

/-- Witness for claim C2 at concrete 15-member parents. -/
theorem C2_crossover_valid_or_parent_witness :
    (satisfies_constraints (crossover c3team c3team 3 (fun _ => 0) true) = true ∧
      (crossover c3team c3team 3 (fun _ => 0) true).length = 15) ∨
    crossover c3team c3team 3 (fun _ => 0) true = c3team ∨
    crossover c3team c3team 3 (fun _ => 0) true = c3team :=
  C2_crossover_valid_or_parent c3team c3team 3 (fun _ => 0) true
    (by decide) (by decide) (by decide)

/-- Claim C3: every squad the validator accepts has exactly 15
members, pairwise-distinct identifiers, category counts within the
caps of the `max_positions` table, group counts within the group cap,
and total cost within the budget cap. -/
theorem C3_validator_accepts_only_bounded (team : List Player)
    (h : satisfies_constraints team = true) :
    team.length = 15 ∧
    (team.map (fun p => p.element)).Nodup ∧
    (∀ pos cap, maxPos pos = some cap → countPos team pos ≤ cap) ∧
    (∀ tm, countTeam team tm ≤ MAX_PLAYERS_PER_TEAM) ∧
    totalValue team ≤ MAX_VALUE :=
  satisfies_bounds h

/-- Witness for claim C3 at the concrete accepted squad `c3team`. -/
theorem C3_validator_accepts_only_bounded_witness :
    c3team.length = 15 ∧ totalValue c3team ≤ MAX_VALUE := by
  have h := C3_validator_accepts_only_bounded c3team (by with_unfolding_all decide)
  exact ⟨h.1, h.2.2.2.2⟩

/-- Claim C4: any squad whose total cost exceeds the budget cap of
1000 has fitness exactly 0, whatever the predicted scores. -/
theorem C4_fitness_zero_over_budget (team : List Player)
    (h : totalValue team > 1000) : fitness team = 0 := by
  have hm : totalValue team > MAX_VALUE := by
    unfold MAX_VALUE
    exact h
  unfold fitness
  rw [if_pos hm]

/-- Witness for claim C4 at a concrete over-budget squad. -/
theorem C4_fitness_zero_over_budget_witness : fitness c4team = 0 :=
  C4_fitness_zero_over_budget c4team (by with_unfolding_all decide)

/-- Claim C5: fitness is invariant under permutation of the squad,
and so is the total cost deciding the budget-overflow zero branch. -/
theorem C5_fitness_perm_invariant (t1 t2 : List Player) (hp : t1.Perm t2) :
    totalValue t1 = totalValue t2 ∧ fitness t1 = fitness t2 := by
  refine ⟨totalValue_perm hp, ?_⟩
  unfold fitness
  rw [totalValue_perm hp, sorted_points_perm hp]

/-- Witness for claim C5 at a concrete two-member swap. -/
theorem C5_fitness_perm_invariant_witness :
    totalValue c5a = totalValue c5b ∧ fitness c5a = fitness c5b :=
  C5_fitness_perm_invariant c5a c5b (by decide)

/-- Claim C6, evaluation at the failing input: the duplicate-removal
step of `crossover` leaves the spliced child `c6spliced` (identifier
sequence 1, 2, 1, ...) unchanged, so its identifiers are not pairwise
distinct afterwards — `dedup_by_key` removes only consecutive
duplicates. -/
theorem C6_dedup_keeps_nonadjacent_duplicate :
    dedupByKeyElem c6spliced = c6spliced ∧
    ¬ ((dedupByKeyElem c6spliced).map (fun p => p.element)).Nodup := by
  constructor
  · with_unfolding_all decide
  · with_unfolding_all decide

/-- Claim C7, counterexample: on the all-negative squad `c7team` the
reported aggregate is the sum plus 0, not the sum plus the highest
predicted score. -/
theorem C7_report_cex :
    (c7team.map (fun p => p.predicted_points)).max? = some (-1) ∧
    total_predicted_points c7team
      ≠ (c7team.map (fun p => p.predicted_points)).sum + (-1) := by
  constructor
  · with_unfolding_all decide
  · with_unfolding_all decide

/-- Claim C7, amended: the reported aggregate equals the sum of the
predicted scores plus the larger of zero and the highest predicted
score, because the reporting fold starts its maximum accumulator at
zero. -/
theorem C7_report_sum_plus_clamped_max (team : List Player) :
    total_predicted_points team
      = (team.map (fun p => p.predicted_points)).sum
        + (team.map (fun p => p.predicted_points)).foldl max 0 := by
  unfold total_predicted_points report_fold
  rw [report_fold_eq]
  simp

/-- Claim C8: whenever the initializer terminates it returns a squad
of exactly 15 members within category caps, group cap and budget; and
identifier distinctness is not guaranteed — a concrete run accepts the
same pool player twice. -/
theorem C8_generate_invariants :
    (∀ (players : List Player) (draws : Nat → Nat) (fuel : Nat) (team : List Player),
      generate_random_team players draws fuel = some team →
      team.length = 15 ∧
      (∀ pos cap, maxPos pos = some cap → countPos team pos ≤ cap) ∧
      (∀ tm, countTeam team tm ≤ MAX_PLAYERS_PER_TEAM) ∧
      totalValue team ≤ MAX_VALUE) ∧
    (c1gen.isSome = true ∧
      ¬ ((c1gen.getD []).map (fun p => p.element)).Nodup) := by
  refine ⟨fun players draws fuel team hrun => generate_inv hrun, ?_, ?_⟩
  · with_unfolding_all decide
  · with_unfolding_all decide

/-- Witness for claim C8 at the concrete terminating run `c1gen`. -/
theorem C8_generate_invariants_witness :
    (c1gen.getD []).length = 15 ∧ totalValue (c1gen.getD []) ≤ MAX_VALUE := by
  have h := C8_generate_invariants.1 c1pool c1draws 20 (c1gen.getD [])
    (by with_unfolding_all decide)
  exact ⟨h.1, h.2.2.2⟩

/-- Claim C9, counterexample: `c9team` has 15 members with distinct
identifiers, all of the unlisted category "XX", group counts within
cap and total cost exactly the budget cap, yet the validator rejects
it — the cost of its first member alone exceeds the running budget check,
which a later negative cost repays. -/
theorem C9_nocap_cex :
    satisfies_constraints c9team = false ∧
    c9team.length = 15 ∧
    (c9team.map (fun p => p.element)).Nodup ∧
    ((c9team.all fun p => decide (countTeam c9team p.team ≤ MAX_PLAYERS_PER_TEAM)) = true) ∧
    ((c9team.all fun p => decide (maxPos p.position = none)) = true) ∧
    totalValue c9team ≤ MAX_VALUE := by
  refine ⟨?_, ?_, ?_, ?_, ?_, ?_⟩
  · with_unfolding_all decide
  · decide
  · decide
  · with_unfolding_all decide
  · decide
  · with_unfolding_all decide

/-- Claim C9, amended: the validator enforces no cap on categories
outside the `max_positions` table — it accepts every 15-member squad
with pairwise-distinct identifiers, group counts within cap,
nonnegative member costs and total cost within budget whose members
all carry an unlisted category. -/
theorem C9_nocap_accepts (team : List Player)
    (hlen : team.length = 15)
    (hnd : (team.map (fun p => p.element)).Nodup)
    (hcap : ∀ q ∈ team, maxPos q.position = none)
    (hnn : ∀ q ∈ team, 0 ≤ q.value)
    (hgrp : ∀ q ∈ team, countTeam team q.team ≤ MAX_PLAYERS_PER_TEAM)
    (hbud : totalValue team ≤ MAX_VALUE) :
    satisfies_constraints team = true :=
  satisfies_of_nocap hlen hnd hcap hnn hgrp hbud

/-- Witness for the amended claim C9 at the concrete unlisted-category
squad `c9valid`. -/
theorem C9_nocap_accepts_witness : satisfies_constraints c9valid = true :=
  C9_nocap_accepts c9valid (by decide) (by decide) (by decide)
    (by with_unfolding_all decide) (by with_unfolding_all decide)
    (by with_unfolding_all decide)
